import Mathlib

/-!
Verification of the cloudigrade event-to-run reconciliation pipeline.

This file shallowly embeds the claim-relevant parts of the cloudigrade
sources (api/tasks.py, analyzer/tasks.py, api/models.py, account/models.py,
util/insights.py) as Lean definitions and proves or refutes the frozen
claims about them.

Modelling conventions:
- Django datetimes are modelled as integers (`Int`); only their linear
  order matters to the claims.
- JSON records are flattened into structures of `Option` fields: `none`
  models an absent key, `some v` a present one.
- Fallible code (Python KeyError / raised exceptions) is modelled with
  `Except`.
- Database rows irrelevant to every claim (foreign keys, vcpu, memory,
  regions, ...) are omitted from the corresponding structures.
-/

namespace Cloudigrade

/-- The three `InstanceEvent.TYPE` choices of api/models.py. -/
inductive EventType where
  | power_on
  | power_off
  | attribute_change
deriving DecidableEq

/-- A stored `Run` row (api/models.py:482-518), restricted to the columns
the claims speak about: `start_time` (non-null) and the nullable
`end_time`. -/
structure Run where
  start_time : Int
  end_time : Option Int
deriving DecidableEq

/-- An instance event as the run reconciler sees it: an `occurred_at`
instant and an event type (api/models.py `InstanceEvent`). -/
structure SpecEvent where
  occurred_at : Int
  event_type : EventType
deriving DecidableEq

/-! ### The sources-availability notifier (util/insights.py:232-281)

`notify_sources_application_availability` PATCHes the Sources API and then
inspects `response.status_code`.  Only the status-code branching is
relevant to claim C6; the function is modelled as a map from the received
status code to either success or the raised exception. -/

/-- The `SourcesAPINotOkStatus` exception raised by util/insights.py. -/
inductive SourcesError where
  | notOkStatus
deriving DecidableEq

/-- util/insights.py:267-280: after the PATCH, a 404 (`NOT_FOUND`) status
is logged at info level and tolerated; any status other than 204
(`NO_CONTENT`) raises `SourcesAPINotOkStatus`; 204 falls through and the
function returns normally. -/
def notify_sources_application_availability (status : Nat) :
    Except SourcesError Unit :=
  if status = 404 then
    Except.ok ()
  else if status ≠ 204 then
    Except.error SourcesError.notOkStatus
  else
    Except.ok ()

/-! ### Machine image RHEL classification (api/models.py:85-294)

The `MachineImage` model's derived `rhel` property and its inputs.  The
`rhel_detected_by_tag` column does not appear in api/models.py, but rows
carrying it are created elsewhere in the repository
(api/clouds/azure/util.py:219), so the structure carries the field; the
point of claim C4 is precisely whether the `rhel` computation reads it. -/

/-- The parsed `inspection_json` payload: each recognized key may be
absent; `dict.get(key, False)` supplies `False` for absent keys. -/
structure InspectionJson where
  rhel_enabled_repos_found : Option Bool
  rhel_product_certs_found : Option Bool
  rhel_release_files_found : Option Bool
  rhel_signed_packages_found : Option Bool
deriving DecidableEq

/-- The claim-relevant columns of an `AwsMachineImage` content object
(api/models.py:229-294) together with its generic `MachineImage` row
(api/models.py:85-227).  `name` lives on `MachineImage`;
`owner_aws_account_id` on `AwsMachineImage`. -/
structure MachineImageRec where
  inspection_json : Option InspectionJson
  rhel_challenged : Bool
  rhel_detected_by_tag : Bool
  name : Option String
  owner_aws_account_id : Option Int
deriving DecidableEq

/-- `CLOUD_ACCESS_NAME_TOKEN` (api/models.py:18). -/
def CLOUD_ACCESS_NAME_TOKEN : String := "-Access2"

/-- Python's `needle in haystack` on character lists: some suffix of the
haystack starts with the needle. -/
def charSeqContains (needle : List Char) : List Char → Bool
  | [] => needle.isEmpty
  | c :: rest => List.isPrefixOf needle (c :: rest) || charSeqContains needle rest

/-- Python's `needle in haystack` for strings. -/
def strContains (needle haystack : String) : Bool :=
  charSeqContains needle.data haystack.data

/-- `AwsMachineImage.is_cloud_access` (api/models.py:266-274): the image
name is non-null, contains `CLOUD_ACCESS_NAME_TOKEN` case-insensitively,
and the owner account id is in `settings.RHEL_IMAGES_AWS_ACCOUNTS`
(passed here as the `rhelImagesAwsAccounts` parameter). -/
def is_cloud_access (rhelImagesAwsAccounts : List Int)
    (img : MachineImageRec) : Bool :=
  match img.name with
  | none => false
  | some n =>
      strContains CLOUD_ACCESS_NAME_TOKEN.toLower n.toLower &&
      (match img.owner_aws_account_id with
       | some owner => rhelImagesAwsAccounts.contains owner
       | none => false)

/-- `MachineImage.rhel_enabled_repos_found` (api/models.py:124-136):
the key from `inspection_json` defaulting to `False`, and `False` when
`inspection_json` is null. -/
def rhel_enabled_repos_found (img : MachineImageRec) : Bool :=
  match img.inspection_json with
  | some j => j.rhel_enabled_repos_found.getD false
  | none => false

/-- `MachineImage.rhel_product_certs_found` (api/models.py:138-150). -/
def rhel_product_certs_found (img : MachineImageRec) : Bool :=
  match img.inspection_json with
  | some j => j.rhel_product_certs_found.getD false
  | none => false

/-- `MachineImage.rhel_release_files_found` (api/models.py:152-164). -/
def rhel_release_files_found (img : MachineImageRec) : Bool :=
  match img.inspection_json with
  | some j => j.rhel_release_files_found.getD false
  | none => false

/-- `MachineImage.rhel_signed_packages_found` (api/models.py:166-178). -/
def rhel_signed_packages_found (img : MachineImageRec) : Bool :=
  match img.inspection_json with
  | some j => j.rhel_signed_packages_found.getD false
  | none => false

/-- `MachineImage.rhel_detected` (api/models.py:180-194):
`content_object.is_cloud_access or` the four inspection flags. -/
def rhel_detected (rhelImagesAwsAccounts : List Int)
    (img : MachineImageRec) : Bool :=
  is_cloud_access rhelImagesAwsAccounts img ||
  rhel_enabled_repos_found img ||
  rhel_product_certs_found img ||
  rhel_release_files_found img ||
  rhel_signed_packages_found img

/-- `MachineImage.rhel` (api/models.py:113-122):
`operator.xor(self.rhel_detected, self.rhel_challenged)`. -/
def rhel (rhelImagesAwsAccounts : List Int) (img : MachineImageRec) : Bool :=
  Bool.xor (rhel_detected rhelImagesAwsAccounts img) img.rhel_challenged

/-- The `rhel` boolean exactly as claim C4 words it: the XOR of
`rhel_challenged` with the disjunction of the four inspection flags,
`rhel_detected_by_tag`, and `is_cloud_access`.  Written from the claim,
to be compared with `rhel` (written from the source). -/
def rhelAsClaimed (rhelImagesAwsAccounts : List Int)
    (img : MachineImageRec) : Bool :=
  Bool.xor img.rhel_challenged
    (rhel_enabled_repos_found img ||
     rhel_product_certs_found img ||
     rhel_release_files_found img ||
     rhel_signed_packages_found img ||
     img.rhel_detected_by_tag ||
     is_cloud_access rhelImagesAwsAccounts img)

/-- The `rhel` formula as amended: the same XOR but without the
`rhel_detected_by_tag` disjunct, which api/models.py does not read. -/
def rhelAsAmended (rhelImagesAwsAccounts : List Int)
    (img : MachineImageRec) : Bool :=
  Bool.xor img.rhel_challenged
    (rhel_enabled_repos_found img ||
     rhel_product_certs_found img ||
     rhel_release_files_found img ||
     rhel_signed_packages_found img ||
     is_cloud_access rhelImagesAwsAccounts img)

/-- An image whose only RHEL signal is `rhel_detected_by_tag`. -/
def taggedOnlyImage : MachineImageRec :=
  { inspection_json := none
    rhel_challenged := false
    rhel_detected_by_tag := true
    name := none
    owner_aws_account_id := none }

/-! ### CloudTrail record parsing (analyzer/tasks.py:352-472)

A raw CloudTrail log record is a JSON object; the fields the parser
touches are flattened here.  Nested lookups (`record['userIdentity']
['accountId']`, `record['requestParameters']['instanceType']['value']`,
...) are flattened to one `Option` field each: `none` when any key on
the path is missing.  `eventTime` strings are represented by their
parsed instant. -/

/-- The claim-relevant fields of one CloudTrail record. -/
structure TrailRecord where
  eventSource : Option String
  errorCode : Option String
  eventName : Option String
  eventTime : Option Int
  userIdentityAccountId : Option String
  awsRegion : Option String
  requestParametersInstanceTypeValue : Option String
  requestParametersInstanceId : Option String
  /-- `responseElements.instancesSet.items`, each item reduced to its
  optional `instanceId`; `[]` when any key on the path is missing
  (the chained `.get(..., default)` calls). -/
  responseElementsInstancesSetItems : List (Option String)
deriving DecidableEq

/-- The `CloudTrailInstanceEvent` namedtuple (analyzer/tasks.py:65-69). -/
structure CloudTrailInstanceEvent where
  occurred_at : Int
  account_id : String
  region : String
  instance_id : String
  event_type : EventType
  instance_type : Option String
deriving DecidableEq

/-- `ec2_instance_event_map` (analyzer/tasks.py:46-54). -/
def ec2_instance_event_map : List (String × EventType) :=
  [("RunInstances", EventType.power_on),
   ("StartInstance", EventType.power_on),
   ("StartInstances", EventType.power_on),
   ("StopInstances", EventType.power_off),
   ("TerminateInstances", EventType.power_off),
   ("TerminateInstanceInAutoScalingGroup", EventType.power_off),
   ("ModifyInstanceAttribute", EventType.attribute_change)]

/-- Python truthiness of `record.get(key)` for a string-valued key:
false when the key is absent or its value is the empty string. -/
def pyTruthy : Option String → Bool
  | none => false
  | some s => !s.isEmpty

/-- `_is_valid_event` (analyzer/tasks.py:451-472): the record's
`eventSource` must equal `ec2.amazonaws.com`, `record.get('errorCode')`
must be falsy, and `record.get('eventName')` must be in `valid_events`. -/
def is_valid_event (record : TrailRecord) (validEvents : List String) : Bool :=
  if record.eventSource ≠ some "ec2.amazonaws.com" then
    false
  else if pyTruthy record.errorCode then
    false
  else
    match record.eventName with
    | some n => validEvents.contains n
    | none => false

/-- `_parse_log_for_ec2_instance_events` (analyzer/tasks.py:352-401).
Invalid records yield `[]`.  For valid records, missing `eventTime`,
`userIdentity.accountId` or `awsRegion` raise KeyError (`Except.error`).
For `ModifyInstanceAttribute`, missing `requestParameters.instanceType.
value` or `requestParameters.instanceId` is caught and yields `[]`;
otherwise one event per distinct `instanceId` in
`responseElements.instancesSet.items` is produced (the Python `set`
comprehension is modelled by `List.dedup`). -/
def parse_log_for_ec2_instance_events (record : TrailRecord) :
    Except Unit (List CloudTrailInstanceEvent) :=
  if ¬ is_valid_event record (ec2_instance_event_map.map Prod.fst) then
    Except.ok []
  else
    match record.eventTime, record.userIdentityAccountId, record.awsRegion with
    | some occurred_at, some account_id, some region =>
        match record.eventName.bind (fun n => ec2_instance_event_map.lookup n) with
        | none => Except.error ()
        | some event_type =>
            if event_type = EventType.attribute_change then
              match record.requestParametersInstanceTypeValue,
                    record.requestParametersInstanceId with
              | some instance_type, some instance_id =>
                  Except.ok [{ occurred_at := occurred_at,
                               account_id := account_id,
                               region := region,
                               instance_id := instance_id,
                               event_type := event_type,
                               instance_type := some instance_type }]
              | _, _ => Except.ok []
            else
              Except.ok
                (((record.responseElementsInstancesSetItems.filterMap id).dedup).map
                  (fun instance_id =>
                    { occurred_at := occurred_at,
                      account_id := account_id,
                      region := region,
                      instance_id := instance_id,
                      event_type := event_type,
                      instance_type := none }))
    | _, _, _ => Except.error ()

/-- A record that is valid for the parser in every respect except that
its `errorCode` key is present with an empty-string value. -/
def emptyErrorCodeRecord : TrailRecord :=
  { eventSource := some "ec2.amazonaws.com"
    errorCode := some ""
    eventName := some "StopInstances"
    eventTime := some 100
    userIdentityAccountId := some "111122223333"
    awsRegion := some "us-east-1"
    requestParametersInstanceTypeValue := none
    requestParametersInstanceId := none
    responseElementsInstancesSetItems := [some "i-0abc"] }

/-! ### Saving events: the pre-account cutoff (api/tasks.py:1490-1527)

`_build_events_info_for_saving` turns incoming `CloudTrailInstanceEvent`s
into dicts ready for saving, discarding events that occurred before the
owning account's `created_at`. -/

/-- The claim-relevant attribute of a `CloudAccount` row. -/
structure CloudAccountRec where
  created_at : Int
deriving DecidableEq

/-- The boto3 instance data consulted via `getattr(instance, ..., None)`. -/
structure AwsDescribedInstance where
  subnet_id : Option String
  image_id : Option String
  instance_type : Option String
deriving DecidableEq

/-- One entry of the `events_info` list built for saving. -/
structure EventInfo where
  subnet : Option String
  ec2_ami_id : Option String
  instance_type : Option String
  event_type : EventType
  occurred_at : Int
deriving DecidableEq

/-- The dict built for one kept event (api/tasks.py:1515-1523):
`instance_type` falls back to the instance's when the event carries
none. -/
def eventInfoFor (inst : AwsDescribedInstance)
    (ev : CloudTrailInstanceEvent) : EventInfo :=
  { subnet := inst.subnet_id
    ec2_ami_id := inst.image_id
    instance_type :=
      match ev.instance_type with
      | some t => some t
      | none => inst.instance_type
    event_type := ev.event_type
    occurred_at := ev.occurred_at }

/-- `_build_events_info_for_saving` (api/tasks.py:1490-1527): the list
comprehension keeps exactly the events with
`parse(occurred_at) >= account.created_at` and maps each through the
dict construction. -/
def build_events_info_for_saving (account : CloudAccountRec)
    (inst : AwsDescribedInstance)
    (events : List CloudTrailInstanceEvent) : List EventInfo :=
  (events.filter (fun ev => account.created_at ≤ ev.occurred_at)).map
    (eventInfoFor inst)

/-- Forget the fields of a saved event that the run reconciler never
reads. -/
def specEventOfInfo (info : EventInfo) : SpecEvent :=
  { occurred_at := info.occurred_at, event_type := info.event_type }

/-! ### The run reconciler

`normalize_runs` (account/reports.py) and `recalculate_runs` (api/util.py)
are imported by api/tasks.py and analyzer/tasks.py but their defining
modules are not part of this source tree, so they are modelled from the
specification (section 4.D rules 1-5 and section 9): a pure function from
the ordered event history to the list of runs. -/

/-- Chronological order on events: `occurred_at` ascending, ties broken
by list (insertion) order via stable sorting. -/
def eventLE (a b : SpecEvent) : Prop :=
  a.occurred_at ≤ b.occurred_at

instance : DecidableRel eventLE :=
  fun a b => inferInstanceAs (Decidable (a.occurred_at ≤ b.occurred_at))

instance : IsTotal SpecEvent eventLE :=
  ⟨fun a b => Int.le_total a.occurred_at b.occurred_at⟩

instance : IsTrans SpecEvent eventLE :=
  ⟨fun _ _ _ h1 h2 => le_trans h1 h2⟩

/-- Modelled from the spec: one step of the left-to-right walk of section
4.D (rules 1-5), maintaining `(emitted runs, open_start?)`.  A `power_on`
with no open run opens one at its instant (rule 1); a `power_on` during
an open run is absorbed, the earliest start winning (rule 3); a
`power_off` closes the open run (rule 2) and is ignored when no run is
open (rule 4); an `attribute_change` splits an open run into two adjacent
runs sharing its instant (rule 5). -/
def reconcileStep (st : List Run × Option Int) (e : SpecEvent) :
    List Run × Option Int :=
  match st, e.event_type with
  | (acc, none), EventType.power_on => (acc, some e.occurred_at)
  | (acc, none), EventType.power_off => (acc, none)
  | (acc, none), EventType.attribute_change => (acc, none)
  | (acc, some s), EventType.power_on => (acc, some s)
  | (acc, some s), EventType.power_off =>
      (acc ++ [{ start_time := s, end_time := some e.occurred_at }], none)
  | (acc, some s), EventType.attribute_change =>
      (acc ++ [{ start_time := s, end_time := some e.occurred_at }],
       some e.occurred_at)

/-- Modelled from the spec: after the walk, a still-open start becomes
the single open run (rule 2: no later `power_off`, so `end_time = null`). -/
def reconcileFinish : List Run × Option Int → List Run
  | (acc, some s) => acc ++ [{ start_time := s, end_time := none }]
  | (acc, none) => acc

/-- Modelled from the spec (sections 4.D and 9): the pure reconciliation
function from an event set to its runs: sort the events chronologically
(stable, so ties keep insertion order) and walk them left to right. -/
def reconcile (events : List SpecEvent) : List Run :=
  reconcileFinish ((List.insertionSort eventLE events).foldl reconcileStep ([], none))

/-- Modelled from the spec: `normalize_runs` of account/reports.py (not
under src/), the event-to-run normalization used by
`process_instance_event` for a fresh batch; per sections 4.D and 9 it is
the same pure reconciliation over the given events. -/
def normalize_runs (events : List SpecEvent) : List Run :=
  reconcile events

/-- Modelled from the spec: `recalculate_runs` of api/util.py (not under
src/), the full recompute; per section 7 the reconciler is a pure
function of the stored events, so recomputing yields `reconcile` of the
instance's saved event history. -/
def recalculate_runs (events : List SpecEvent) : List Run :=
  reconcile events

/-! ### `process_instance_event` (api/tasks.py:92-121)

The task builds three Q filters against the instance's stored runs and
performs a full recompute if any run matches; otherwise a `power_on`
event is normalized on its own and the resulting runs inserted. -/

/-- `after_run = Q(start_time__gt=event.occurred_at)` (api/tasks.py:95). -/
def after_run (t : Int) (r : Run) : Bool :=
  t < r.start_time

/-- `during_run = Q(start_time__lte=..., end_time__gt=...)`
(api/tasks.py:96-97); a null `end_time` never satisfies `end_time__gt`. -/
def during_run (t : Int) (r : Run) : Bool :=
  r.start_time ≤ t &&
    (match r.end_time with
     | some e2 => t < e2
     | none => false)

/-- `during_run_no_end = Q(start_time__lte=..., end_time=None)`
(api/tasks.py:98). -/
def during_run_no_end (t : Int) (r : Run) : Bool :=
  r.start_time ≤ t && r.end_time.isNone

/-- The disjunction `filters = after_run | during_run | during_run_no_end`
(api/tasks.py:100). -/
def runMatchesEventFilters (t : Int) (r : Run) : Bool :=
  after_run t r || during_run t r || during_run_no_end t r

/-- Which branch of `process_instance_event` runs. -/
inductive ProcessAction where
  | fullRecompute
  | fastInsert
  | noAction
deriving DecidableEq

/-- The branch structure of `process_instance_event` (api/tasks.py:103-121):
`recalculate_runs` when some stored run matches the filters, the fast
insert when none does and the event is a `power_on`, nothing otherwise. -/
def processInstanceEventAction (runs : List Run) (e : SpecEvent) :
    ProcessAction :=
  if runs.any (runMatchesEventFilters e.occurred_at) then
    ProcessAction.fullRecompute
  else if e.event_type = EventType.power_on then
    ProcessAction.fastInsert
  else
    ProcessAction.noAction

/-- The per-instance persistent state `process_instance_event` acts on:
the saved `InstanceEvent` rows and the stored `Run` rows. -/
structure ProcState where
  events : List SpecEvent
  runs : List Run
deriving DecidableEq

/-- One event-processing operation: the event has been saved during log
analysis, then `process_instance_event` (api/tasks.py:92-121) either
fully recomputes the runs from the stored events, inserts the runs
normalized from the single new `power_on` event, or does nothing. -/
def stepState (st : ProcState) (e : SpecEvent) : ProcState :=
  let savedEvents := st.events ++ [e]
  if st.runs.any (runMatchesEventFilters e.occurred_at) then
    { events := savedEvents, runs := recalculate_runs savedEvents }
  else if e.event_type = EventType.power_on then
    { events := savedEvents, runs := st.runs ++ normalize_runs [e] }
  else
    { events := savedEvents, runs := st.runs }

/-- Processing a whole sequence of events from the empty initial state. -/
def processAll (es : List SpecEvent) : ProcState :=
  es.foldl stepState { events := [], runs := [] }

/-- Claim C2's invariant on a list of stored runs: at most one run is
open (`end_time = null`), and an open run's `start_time` is maximal. -/
def GoodRuns (runs : List Run) : Prop :=
  runs.countP (fun r => r.end_time.isNone) ≤ 1 ∧
  ∀ r ∈ runs, r.end_time = none → ∀ r2 ∈ runs, r2.start_time ≤ r.start_time

/-- The invariant carried through the reconciliation walk: every emitted
run is closed with `start_time` at most the bound `b` (the last processed
instant), and an open start is at most `b` and bounds every emitted
run's start. -/
def StepInv (st : List Run × Option Int) (b : Int) : Prop :=
  (∀ r ∈ st.1, r.end_time ≠ none) ∧
  (∀ r ∈ st.1, r.start_time ≤ b) ∧
  (∀ s, st.2 = some s → s ≤ b ∧ ∀ r ∈ st.1, r.start_time ≤ s)

/-- A closed run ending at or before instant `t`. -/
def runEndedBy (r : Run) (t : Int) : Bool :=
  match r.end_time with
  | some e2 => e2 ≤ t
  | none => false

/-- A run that is open, or closed strictly after instant `t`. -/
def runOpenOrEndsAfter (r : Run) (t : Int) : Bool :=
  match r.end_time with
  | some e2 => t < e2
  | none => true

/-- The stored runs of claim C1's counterexample: one open run started
at instant 1. -/
def oneOpenRun : List Run :=
  [{ start_time := 1, end_time := none }]

/-- The new event of claim C1's counterexample: a `power_on` at instant
2, strictly after the open run's start. -/
def laterPowerOn : SpecEvent :=
  { occurred_at := 2, event_type := EventType.power_on }

/-- A stored-run list with a single closed run, for exercising the fast
path. -/
def closedRunsDemo : List Run :=
  [{ start_time := 1, end_time := some 2 }]

/-- A `power_on` event at instant 3, after `closedRunsDemo` fully ends. -/
def powerOnAt3 : SpecEvent :=
  { occurred_at := 3, event_type := EventType.power_on }

/-! ## Theorems -/

/-- C6 counterexample: a 500 response is non-2xx and not 404, yet
`notify_sources_application_availability` does not complete quietly: it
raises `SourcesAPINotOkStatus` to its caller, contrary to the claim that
such responses are non-fatal warnings. -/
theorem notify_availability_claim_counterexample :
    (¬ (200 ≤ 500 ∧ 500 ≤ 299)) ∧ 500 ≠ 404 ∧
    notify_sources_application_availability 500 =
      Except.error SourcesError.notOkStatus :=
  ⟨by decide, by decide, rfl⟩

/-- C6 amended: after notifying the sources-availability endpoint, a 404
response is tolerated without error; every other response status except
204 No Content — including 2xx statuses other than 204 and all other
non-2xx statuses — raises `SourcesAPINotOkStatus` to the caller. -/
theorem notify_availability_amended (status : Nat) :
    notify_sources_application_availability status = Except.ok () ↔
      status = 404 ∨ status = 204 := by
  unfold notify_sources_application_availability
  by_cases h1 : status = 404
  · simp [h1]
  · by_cases h2 : status = 204
    · simp [h1, h2]
    · simp [h1, h2]

/-- C4 counterexample: for an image whose only RHEL signal is
`rhel_detected_by_tag`, the stored `rhel` property is `false` while the
claimed formula — which includes `rhel_detected_by_tag` in the
disjunction — gives `true`: the code's `rhel_detected` never reads
`rhel_detected_by_tag`. -/
theorem rhel_claim_counterexample :
    rhel [] taggedOnlyImage = false ∧
    rhelAsClaimed [] taggedOnlyImage = true := by
  decide

/-- C4 amended: for every machine image, the derived `rhel` boolean
equals the XOR of `rhel_challenged` with the disjunction of
`rhel_enabled_repos_found`, `rhel_product_certs_found`,
`rhel_release_files_found`, `rhel_signed_packages_found` (each read from
`inspection_json`) and `is_cloud_access`; `rhel_detected_by_tag` does not
participate. -/
theorem rhel_amended (accts : List Int) (img : MachineImageRec) :
    rhel accts img = rhelAsAmended accts img := by
  have key : ∀ a b c d e f : Bool,
      Bool.xor (a || b || c || d || e) f = Bool.xor f (b || c || d || e || a) := by
    decide
  unfold rhel rhelAsAmended rhel_detected
  exact key (is_cloud_access accts img) (rhel_enabled_repos_found img)
    (rhel_product_certs_found img) (rhel_release_files_found img)
    (rhel_signed_packages_found img) img.rhel_challenged

/-- What `is_valid_event` returning true guarantees about the record. -/
theorem is_valid_event_true_iff (record : TrailRecord)
    (validEvents : List String) :
    is_valid_event record validEvents = true ↔
      record.eventSource = some "ec2.amazonaws.com" ∧
      pyTruthy record.errorCode = false ∧
      ∃ n, record.eventName = some n ∧ validEvents.contains n = true := by
  unfold is_valid_event
  by_cases h1 : record.eventSource = some "ec2.amazonaws.com"
  · by_cases h2 : pyTruthy record.errorCode
    · simp [h1, h2]
    · rcases hn : record.eventName with _ | n
      · simp [h1, h2, hn]
      · simp [h1, h2, hn]
  · simp [h1]

/-- C5 counterexample: `emptyErrorCodeRecord` carries an `errorCode` key
(with empty-string value), so its `errorCode` is not absent, yet parsing
yields one instance event instead of discarding the record: the code
tests `record.get('errorCode')` for truthiness, not for presence. -/
theorem parse_record_claim_counterexample :
    parse_log_for_ec2_instance_events emptyErrorCodeRecord =
      Except.ok [{ occurred_at := 100, account_id := "111122223333",
                   region := "us-east-1", instance_id := "i-0abc",
                   event_type := EventType.power_off,
                   instance_type := none }] ∧
    emptyErrorCodeRecord.errorCode ≠ none :=
  ⟨rfl, by decide⟩

/-- C5 amended: a record yields instance events only if its
`eventSource` equals `ec2.amazonaws.com`, its `errorCode` is absent or
present with a falsy (empty-string) value, and its `eventName` is in the
recognized set; additionally a `ModifyInstanceAttribute` record lacking
`requestParameters.instanceType.value` is discarded, so a nonempty yield
implies that value is present. -/
theorem parse_record_amended (record : TrailRecord)
    (evs : List CloudTrailInstanceEvent)
    (h : parse_log_for_ec2_instance_events record = Except.ok evs)
    (hne : evs ≠ []) :
    record.eventSource = some "ec2.amazonaws.com" ∧
    (record.errorCode = none ∨ record.errorCode = some "") ∧
    (∃ n, record.eventName = some n ∧
      n ∈ ec2_instance_event_map.map Prod.fst) ∧
    (record.eventName = some "ModifyInstanceAttribute" →
      record.requestParametersInstanceTypeValue ≠ none) := by
  unfold parse_log_for_ec2_instance_events at h
  by_cases hv : is_valid_event record (ec2_instance_event_map.map Prod.fst) = true
  case neg =>
    rw [if_pos] at h
    · exact absurd (Except.ok.inj h).symm hne
    · simpa using hv
  case pos =>
    rw [if_neg (by simp [hv])] at h
    obtain ⟨hsource, herr, n, hname, hmem⟩ :=
      (is_valid_event_true_iff record (ec2_instance_event_map.map Prod.fst)).mp hv
    refine ⟨hsource, ?_, ⟨n, hname, ?_⟩, ?_⟩
    · rcases hcode : record.errorCode with _ | s
      · exact Or.inl rfl
      · refine Or.inr ?_
        rw [hcode] at herr
        simp only [pyTruthy, Bool.not_eq_false'] at herr
        rw [(String.isEmpty_iff s).mp herr]
    · simpa [List.contains] using List.elem_iff.mp hmem
    · intro hmia hval
      rcases ht : record.eventTime with _ | occurred_at
      · rw [ht] at h; simp at h
      · rcases ha : record.userIdentityAccountId with _ | account_id
        · rw [ht, ha] at h; simp at h
        · rcases hr : record.awsRegion with _ | region
          · rw [ht, ha, hr] at h; simp at h
          · rw [ht, ha, hr] at h
            rw [hmia] at h
            rw [hval] at h
            simp [ec2_instance_event_map, Option.bind] at h
            exact hne (Except.ok.inj h).symm

/-- C5 amended, witness: instantiating the theorem on
`emptyErrorCodeRecord`, whose parse is a concrete nonempty event list. -/
theorem parse_record_amended_witness :
    emptyErrorCodeRecord.eventSource = some "ec2.amazonaws.com" ∧
    (emptyErrorCodeRecord.errorCode = none ∨
      emptyErrorCodeRecord.errorCode = some "") ∧
    (∃ n, emptyErrorCodeRecord.eventName = some n ∧
      n ∈ ec2_instance_event_map.map Prod.fst) ∧
    (emptyErrorCodeRecord.eventName = some "ModifyInstanceAttribute" →
      emptyErrorCodeRecord.requestParametersInstanceTypeValue ≠ none) :=
  parse_record_amended emptyErrorCodeRecord
    [{ occurred_at := 100, account_id := "111122223333",
       region := "us-east-1", instance_id := "i-0abc",
       event_type := EventType.power_off, instance_type := none }]
    rfl (by decide)

/-- Walking events that all occur at or after `c` keeps every emitted
run's start and any open start at or after `c`. -/
theorem foldl_reconcileStep_ge (c : Int) (es : List SpecEvent) :
    ∀ st : List Run × Option Int,
      (∀ e ∈ es, c ≤ e.occurred_at) →
      (∀ r ∈ st.1, c ≤ r.start_time) →
      (∀ s, st.2 = some s → c ≤ s) →
      (∀ r ∈ (es.foldl reconcileStep st).1, c ≤ r.start_time) ∧
      (∀ s, (es.foldl reconcileStep st).2 = some s → c ≤ s) := by
  induction es with
  | nil => exact fun st _ hr hs => ⟨hr, hs⟩
  | cons e es ih =>
      intro st he hr hs
      have hce : c ≤ e.occurred_at := he e (List.mem_cons_self e es)
      have he' : ∀ x ∈ es, c ≤ x.occurred_at :=
        fun x hx => he x (List.mem_cons_of_mem _ hx)
      rw [List.foldl_cons]
      refine ih (reconcileStep st e) he' ?_ ?_
      · obtain ⟨acc, openS⟩ := st
        cases openS with
        | none =>
            cases het : e.event_type <;> simp only [reconcileStep, het] <;>
              exact hr
        | some s =>
            have hcs : c ≤ s := hs s rfl
            cases het : e.event_type <;> simp only [reconcileStep, het]
            · exact hr
            · intro r hrm
              rcases List.mem_append.mp hrm with hrm | hrm
              · exact hr r hrm
              · rw [List.mem_singleton.mp hrm]; exact hcs
            · intro r hrm
              rcases List.mem_append.mp hrm with hrm | hrm
              · exact hr r hrm
              · rw [List.mem_singleton.mp hrm]; exact hcs
      · obtain ⟨acc, openS⟩ := st
        cases openS with
        | none =>
            cases het : e.event_type <;> simp only [reconcileStep, het]
            · intro s hss; exact Option.some.inj hss ▸ hce
            · exact hs
            · exact hs
        | some s =>
            have hcs : c ≤ s := hs s rfl
            cases het : e.event_type <;> simp only [reconcileStep, het]
            · exact hs
            · intro s2 hss; exact absurd hss (by simp)
            · intro s2 hss; exact Option.some.inj hss ▸ hce

/-- Every run reconciled from events occurring at or after `c` starts at
or after `c`. -/
theorem reconcile_time_lb (c : Int) (es : List SpecEvent)
    (h : ∀ e ∈ es, c ≤ e.occurred_at) :
    ∀ r ∈ reconcile es, c ≤ r.start_time := by
  unfold reconcile
  have hmem : ∀ e ∈ List.insertionSort eventLE es, c ≤ e.occurred_at :=
    fun e hme => h e ((List.perm_insertionSort eventLE es).mem_iff.mp hme)
  obtain ⟨h1, h2⟩ := foldl_reconcileStep_ge c (List.insertionSort eventLE es)
    ([], none) hmem (by simp) (by simp)
  rcases hst : (List.insertionSort eventLE es).foldl reconcileStep ([], none)
    with ⟨acc, openS⟩
  rw [hst] at h1 h2
  cases openS with
  | none => simpa only [reconcileFinish] using h1
  | some s =>
      intro r hrm
      simp only [reconcileFinish] at hrm
      rcases List.mem_append.mp hrm with hrm | hrm
      · exact h1 r hrm
      · rw [List.mem_singleton.mp hrm]
        exact h2 s rfl

/-- Every saved event-info entry's instant is at or after the account's
creation instant. -/
theorem build_events_info_time_lb (account : CloudAccountRec)
    (inst : AwsDescribedInstance) (events : List CloudTrailInstanceEvent) :
    ∀ info ∈ build_events_info_for_saving account inst events,
      account.created_at ≤ info.occurred_at := by
  intro info hinfo
  unfold build_events_info_for_saving at hinfo
  obtain ⟨ev, hev, hmap⟩ := List.mem_map.mp hinfo
  have hkeep := (List.mem_filter.mp hev).2
  rw [← hmap]
  simpa [eventInfoFor] using of_decide_eq_true hkeep

/-- C3: `_build_events_info_for_saving` discards exactly the incoming
events whose `occurred_at` is strictly earlier than the owning account's
`created_at` — every saved entry's instant is at or after `created_at`,
an event occurring exactly at `created_at` is kept — and consequently
every run reconciled from the saved events starts at or after
`created_at`, so no stored run references a pre-account event. -/
theorem pre_account_cutoff (account : CloudAccountRec)
    (inst : AwsDescribedInstance) (events : List CloudTrailInstanceEvent) :
    (∀ info ∈ build_events_info_for_saving account inst events,
        account.created_at ≤ info.occurred_at) ∧
    (∀ ev ∈ events, account.created_at ≤ ev.occurred_at →
        eventInfoFor inst ev ∈ build_events_info_for_saving account inst events) ∧
    (∀ r ∈ reconcile ((build_events_info_for_saving account inst events).map
        specEventOfInfo), account.created_at ≤ r.start_time) := by
  refine ⟨build_events_info_time_lb account inst events, ?_, ?_⟩
  · intro ev hev hle
    unfold build_events_info_for_saving
    exact List.mem_map_of_mem _ (List.mem_filter.mpr ⟨hev, by simpa using hle⟩)
  · refine reconcile_time_lb _ _ ?_
    intro e he
    obtain ⟨info, hinfo, hmap⟩ := List.mem_map.mp he
    rw [← hmap]
    simpa [specEventOfInfo] using
      build_events_info_time_lb account inst events info hinfo

/-- C3 witness: on a concrete account created at instant 10 and three
events at instants 5, 10 and 12, the saved list keeps the boundary event
at 10; instantiating the theorem's second part there. -/
theorem pre_account_cutoff_witness :
    eventInfoFor { subnet_id := none, image_id := none, instance_type := none }
        { occurred_at := 10, account_id := "1", region := "r",
          instance_id := "i", event_type := EventType.power_on,
          instance_type := none } ∈
      build_events_info_for_saving { created_at := 10 }
        { subnet_id := none, image_id := none, instance_type := none }
        [{ occurred_at := 5, account_id := "1", region := "r",
           instance_id := "i", event_type := EventType.power_off,
           instance_type := none },
         { occurred_at := 10, account_id := "1", region := "r",
           instance_id := "i", event_type := EventType.power_on,
           instance_type := none },
         { occurred_at := 12, account_id := "1", region := "r",
           instance_id := "i", event_type := EventType.power_off,
           instance_type := none }] :=
  (pre_account_cutoff { created_at := 10 }
      { subnet_id := none, image_id := none, instance_type := none }
      _).2.1 _ (by decide) (by decide)

/-- One reconciliation step preserves the walk invariant, advancing the
bound to the processed event's instant. -/
theorem reconcileStep_inv (st : List Run × Option Int) (b : Int)
    (e : SpecEvent) (h : StepInv st b) (hbe : b ≤ e.occurred_at) :
    StepInv (reconcileStep st e) e.occurred_at := by
  obtain ⟨h1, h2, h3⟩ := h
  obtain ⟨acc, openS⟩ := st
  have h2' : ∀ r ∈ acc, r.start_time ≤ e.occurred_at :=
    fun r hr => le_trans (h2 r hr) hbe
  cases openS with
  | none =>
      cases het : e.event_type <;> simp only [reconcileStep, het]
      · exact ⟨h1, h2', fun s hss => Option.some.inj hss ▸
          ⟨le_refl _, fun r hr => h2' r hr⟩⟩
      · exact ⟨h1, h2', fun s hss => absurd hss (by simp)⟩
      · exact ⟨h1, h2', fun s hss => absurd hss (by simp)⟩
  | some s =>
      obtain ⟨hsb, hstarts⟩ := h3 s rfl
      have hse : s ≤ e.occurred_at := le_trans hsb hbe
      cases het : e.event_type <;> simp only [reconcileStep, het]
      · exact ⟨h1, h2', fun s2 hss => Option.some.inj hss ▸
          ⟨hsb.trans hbe, hstarts⟩⟩
      · refine ⟨?_, ?_, fun s2 hss => absurd hss (by simp)⟩
        · intro r hr
          rcases List.mem_append.mp hr with hr | hr
          · exact h1 r hr
          · rw [List.mem_singleton.mp hr]; simp
        · intro r hr
          rcases List.mem_append.mp hr with hr | hr
          · exact h2' r hr
          · rw [List.mem_singleton.mp hr]; exact hse
      · refine ⟨?_, ?_, ?_⟩
        · intro r hr
          rcases List.mem_append.mp hr with hr | hr
          · exact h1 r hr
          · rw [List.mem_singleton.mp hr]; simp
        · intro r hr
          rcases List.mem_append.mp hr with hr | hr
          · exact h2' r hr
          · rw [List.mem_singleton.mp hr]; exact hse
        · intro s2 hss
          obtain rfl := Option.some.inj hss
          refine ⟨le_refl _, ?_⟩
          intro r hr
          rcases List.mem_append.mp hr with hr | hr
          · exact le_trans (h2 r hr) hbe
          · rw [List.mem_singleton.mp hr]; exact hse

/-- Walking a chronologically sorted event list from an invariant state
ends in an invariant state. -/
theorem foldl_stepInv : ∀ (es : List SpecEvent), List.Sorted eventLE es →
    ∀ (st : List Run × Option Int) (b : Int), StepInv st b →
      (∀ e ∈ es, b ≤ e.occurred_at) →
      ∃ b2, StepInv (es.foldl reconcileStep st) b2
  | [], _, st, b, h, _ => ⟨b, h⟩
  | e :: es, hs, st, b, h, hb => by
      obtain ⟨hhead, htail⟩ := List.sorted_cons.mp hs
      rw [List.foldl_cons]
      exact foldl_stepInv es htail (reconcileStep st e) e.occurred_at
        (reconcileStep_inv st b e h (hb e (List.mem_cons_self e es)))
        (fun x hx => hhead x hx)

/-- The walk over any sorted event list, started fresh, ends in an
invariant state. -/
theorem foldInv_of_sorted (l : List SpecEvent) (hs : List.Sorted eventLE l) :
    ∃ b2, StepInv (l.foldl reconcileStep ([], none)) b2 := by
  cases l with
  | nil => exact ⟨0, by refine ⟨?_, ?_, ?_⟩ <;> simp⟩
  | cons e rest =>
      have hcons := List.sorted_cons.mp hs
      refine foldl_stepInv (e :: rest) hs ([], none) e.occurred_at
        (by refine ⟨?_, ?_, ?_⟩ <;> simp) ?_
      intro x hx
      rcases List.mem_cons.mp hx with rfl | hx
      · exact le_refl _
      · exact hcons.1 x hx

/-- The reconciled runs of any event set satisfy claim C2's invariant:
at most one run is open and an open run's start is maximal. -/
theorem reconcile_goodRuns (es : List SpecEvent) : GoodRuns (reconcile es) := by
  obtain ⟨b, hinv⟩ :=
    foldInv_of_sorted _ (List.sorted_insertionSort eventLE es)
  unfold reconcile
  rcases hst : (List.insertionSort eventLE es).foldl reconcileStep ([], none)
    with ⟨acc, openS⟩
  rw [hst] at hinv
  obtain ⟨hClosed, hLe, hOpen⟩ := hinv
  have hcount : acc.countP (fun r => r.end_time.isNone) = 0 :=
    List.countP_eq_zero.mpr
      (fun r hr hprop => hClosed r hr (Option.isNone_iff_eq_none.mp hprop))
  cases openS with
  | none =>
      simp only [reconcileFinish]
      constructor
      · rw [hcount]; exact Nat.zero_le 1
      · intro r hr hrnone
        exact absurd hrnone (hClosed r hr)
  | some s =>
      simp only [reconcileFinish]
      constructor
      · rw [List.countP_append, hcount]; simp
      · intro r hr hrnone r2 hr2
        rcases List.mem_append.mp hr with hr | hr
        · exact absurd hrnone (hClosed r hr)
        · obtain rfl := List.mem_singleton.mp hr
          rcases List.mem_append.mp hr2 with hr2 | hr2
          · exact (hOpen s rfl).2 r2 hr2
          · rw [List.mem_singleton.mp hr2]

/-- Normalizing a single `power_on` event yields exactly one open run
starting at the event's instant. -/
theorem normalize_runs_single_power_on (e : SpecEvent)
    (h : e.event_type = EventType.power_on) :
    normalize_runs [e] = [{ start_time := e.occurred_at, end_time := none }] := by
  simp [normalize_runs, reconcile, List.insertionSort, reconcileStep, h,
    reconcileFinish]

/-- A run matching none of `process_instance_event`'s Q filters at
instant `t` started at or before `t` and ended at or before `t`. -/
theorem no_match_facts (t : Int) (r : Run)
    (h : runMatchesEventFilters t r = false) :
    r.start_time ≤ t ∧ ∃ u, r.end_time = some u ∧ u ≤ t := by
  unfold runMatchesEventFilters after_run during_run during_run_no_end at h
  rcases hre : r.end_time with _ | u <;> rw [hre] at h <;> simp at h
  · omega
  · refine ⟨h.1, u, rfl, ?_⟩
    exact h.2 h.1

/-- Each `process_instance_event` operation preserves claim C2's
invariant on the stored runs. -/
theorem stepState_goodRuns (st : ProcState) (e : SpecEvent)
    (h : GoodRuns st.runs) : GoodRuns (stepState st e).runs := by
  unfold stepState
  by_cases hm : st.runs.any (runMatchesEventFilters e.occurred_at) = true
  · simp only [hm, if_pos]
    exact reconcile_goodRuns _
  · have hfacts : ∀ r ∈ st.runs,
        r.start_time ≤ e.occurred_at ∧
        ∃ u, r.end_time = some u ∧ u ≤ e.occurred_at := by
      intro r hr
      refine no_match_facts _ _ ?_
      have := List.any_eq_false.mp (Bool.of_not_eq_true hm) r hr
      exact Bool.of_not_eq_true this
    by_cases hp : e.event_type = EventType.power_on
    · simp only [hm, if_neg, hp, if_pos, Bool.false_eq_true, not_false_iff]
      rw [normalize_runs_single_power_on e hp]
      constructor
      · rw [List.countP_append]
        have hcount : st.runs.countP (fun r => r.end_time.isNone) = 0 :=
          List.countP_eq_zero.mpr (fun r hr hprop => by
            obtain ⟨_, u, hu, _⟩ := hfacts r hr
            rw [hu] at hprop
            simp at hprop)
        rw [hcount]; simp
      · intro r hr hrnone r2 hr2
        rcases List.mem_append.mp hr with hr | hr
        · obtain ⟨_, u, hu, _⟩ := hfacts r hr
          rw [hu] at hrnone
          exact absurd hrnone (by simp)
        · obtain rfl := List.mem_singleton.mp hr
          rcases List.mem_append.mp hr2 with hr2 | hr2
          · exact (hfacts r2 hr2).1
          · rw [List.mem_singleton.mp hr2]
    · simp only [hm, if_neg, hp, if_pos, Bool.false_eq_true, not_false_iff,
        if_neg hp]
      exact h

/-- C2: for every instance, after any sequence of event-processing
operations (`process_instance_event`, starting from no stored events and
no stored runs), at most one stored run has `end_time = null`, and if an
open run exists its `start_time` is the maximum `start_time` among that
instance's runs. -/
theorem at_most_one_open_run (es : List SpecEvent) :
    GoodRuns (processAll es).runs := by
  unfold processAll
  have general : ∀ (l : List SpecEvent) (st : ProcState), GoodRuns st.runs →
      GoodRuns (l.foldl stepState st).runs := by
    intro l
    induction l with
    | nil => exact fun st h => h
    | cons e l ih =>
        intro st h
        rw [List.foldl_cons]
        exact ih _ (stepState_goodRuns st e h)
  refine general es { events := [], runs := [] } ⟨by simp, by simp⟩

/-- C1 counterexample: with one stored open run starting at instant 1
and a new `power_on` event at instant 2 — a batch that is all `power_on`
and strictly after every existing run's start — the claim demands the
batch be dropped with no full recompute, but `process_instance_event`
matches the open run via `during_run_no_end` and calls
`recalculate_runs`, a full recompute. -/
theorem fast_path_claim_counterexample :
    laterPowerOn.event_type = EventType.power_on ∧
    (∀ r ∈ oneOpenRun, r.start_time < laterPowerOn.occurred_at) ∧
    (∃ r ∈ oneOpenRun, r.end_time = none) ∧
    processInstanceEventAction oneOpenRun laterPowerOn =
      ProcessAction.fullRecompute := by
  decide

/-- C1 amended: when the new event is a `power_on` occurring strictly
after every stored run's `start_time`, `process_instance_event` triggers
a full recompute (`recalculate_runs`) whenever some stored run is open
or ends after the event — the batch is not dropped; only when every
stored run is closed with `end_time` at or before the event does it take
the fast path, inserting exactly one new open run starting at the event
with no full recompute. -/
theorem fast_path_amended (runs : List Run) (e : SpecEvent)
    (hOn : e.event_type = EventType.power_on)
    (hAfter : ∀ r ∈ runs, r.start_time < e.occurred_at) :
    ((∃ r ∈ runs, runOpenOrEndsAfter r e.occurred_at = true) →
      processInstanceEventAction runs e = ProcessAction.fullRecompute) ∧
    ((∀ r ∈ runs, runEndedBy r e.occurred_at = true) →
      processInstanceEventAction runs e = ProcessAction.fastInsert ∧
      ∀ evs : List SpecEvent,
        (stepState { events := evs, runs := runs } e).runs =
          runs ++ [{ start_time := e.occurred_at, end_time := none }]) := by
  constructor
  · rintro ⟨r, hr, hopen⟩
    have hany : runs.any (runMatchesEventFilters e.occurred_at) = true := by
      refine List.any_eq_true.mpr ⟨r, hr, ?_⟩
      have hstart : r.start_time ≤ e.occurred_at := le_of_lt (hAfter r hr)
      unfold runOpenOrEndsAfter at hopen
      rcases hre : r.end_time with _ | u
      · unfold runMatchesEventFilters during_run_no_end
        rw [hre]
        simp [hstart]
      · rw [hre] at hopen
        have hu : e.occurred_at < u := by simpa using hopen
        unfold runMatchesEventFilters during_run
        rw [hre]
        simp [hstart, hu]
    unfold processInstanceEventAction
    rw [if_pos hany]
  · intro hclosed
    have hany : runs.any (runMatchesEventFilters e.occurred_at) = false := by
      refine List.any_eq_false.mpr ?_
      intro r hr
      have hstart : r.start_time < e.occurred_at := hAfter r hr
      have hend := hclosed r hr
      unfold runEndedBy at hend
      unfold runMatchesEventFilters after_run during_run during_run_no_end
      rcases hre : r.end_time with _ | u <;> rw [hre] at hend
      · simp at hend
      · have hu : u ≤ e.occurred_at := of_decide_eq_true hend
        simp
        omega
    constructor
    · unfold processInstanceEventAction
      rw [if_neg (by simp [hany]), if_pos hOn]
    · intro evs
      unfold stepState
      rw [if_neg (by simp [hany]), if_pos hOn]
      rw [normalize_runs_single_power_on e hOn]

/-- C1 amended, witness: one closed run `[1, 2)` and a `power_on` at
instant 3: the fast path fires and inserts exactly the open run starting
at 3. -/
theorem fast_path_amended_witness :
    processInstanceEventAction closedRunsDemo powerOnAt3 =
      ProcessAction.fastInsert ∧
    (stepState { events := [], runs := closedRunsDemo } powerOnAt3).runs =
      closedRunsDemo ++ [{ start_time := 3, end_time := none }] := by
  have h := (fast_path_amended closedRunsDemo powerOnAt3 (by decide)
    (by decide)).2 (by decide)
  exact ⟨h.1, h.2 []⟩

end Cloudigrade
